import Mathlib

/-!
Verification development for the PrefixHQ inventory reconciliation engine
(src/PrefixHQ.py).  The Python source is shallowly embedded: byte buffers
are lists of naturals below 256, Python dicts keyed by strings are
insertion-ordered association lists with overwrite-in-place assignment,
Python exceptions are modelled with Except, and the file system plus the
remote name-lookup service are passed in as explicit data.
-/

set_option maxRecDepth 4000

/-! ## Generic helpers: Python dict as insertion-ordered association list -/

/-- Python dict assignment d[k] = v: overwrite in place when the key is
already present (keeping its position), otherwise append at the end. -/
def upsert {α : Type} (l : List (String × α)) (k : String) (v : α) : List (String × α) :=
  if l.any (fun kv => kv.1 == k) then
    l.map (fun kv => if kv.1 == k then (k, v) else kv)
  else l ++ [(k, v)]

/-- Python substring test needle in hay, on exploded strings. -/
def subListAt : List Char → List Char → Bool
  | [], _ => true
  | _ :: _, [] => false
  | a :: as, b :: bs => a == b && subListAt as bs

/-- Python s1 in s2 (substring containment). -/
def containsSub (needle hay : List Char) : Bool :=
  match hay with
  | [] => subListAt needle []
  | _ :: t => subListAt needle hay || containsSub needle t

/-! ## UTF-8 decoding, modelling bytes.decode with replacement -/

/-- Is the byte a UTF-8 continuation byte. -/
def isCont (c : Nat) : Bool := 0x80 ≤ c && c ≤ 0xBF

/-- Extra constraint on the first continuation byte after lead b
(rejecting overlong encodings and surrogates, as Python does). -/
def contOk (b c : Nat) : Bool :=
  isCont c &&
  (if b == 0xE0 then 0xA0 ≤ c
   else if b == 0xED then c ≤ 0x9F
   else if b == 0xF0 then 0x90 ≤ c
   else if b == 0xF4 then c ≤ 0x8F
   else true)

/-- The replacement character U+FFFD. -/
def replChar : Char := Char.ofNat 0xFFFD

/-- Models bytes.decode of utf-8 with errors replace: well-formed
sequences decode to their code point, ill-formed bytes become U+FFFD
(replacing the maximal valid subpart), and decoding never fails. -/
def utf8Decode : List Nat → List Char
  | [] => []
  | b :: rest =>
    if b < 0x80 then Char.ofNat b :: utf8Decode rest
    else if 0xC2 ≤ b && b ≤ 0xDF then
      match rest with
      | [] => [replChar]
      | c1 :: r =>
        if isCont c1 then Char.ofNat ((b - 0xC0) * 0x40 + (c1 - 0x80)) :: utf8Decode r
        else replChar :: utf8Decode (c1 :: r)
    else if 0xE0 ≤ b && b ≤ 0xEF then
      match rest with
      | [] => [replChar]
      | [c1] => if contOk b c1 then [replChar] else replChar :: utf8Decode [c1]
      | c1 :: c2 :: r =>
        if contOk b c1 then
          if isCont c2 then
            Char.ofNat ((b - 0xE0) * 0x1000 + (c1 - 0x80) * 0x40 + (c2 - 0x80)) :: utf8Decode r
          else replChar :: utf8Decode (c2 :: r)
        else replChar :: utf8Decode (c1 :: c2 :: r)
    else if 0xF0 ≤ b && b ≤ 0xF4 then
      match rest with
      | [] => [replChar]
      | [c1] => if contOk b c1 then [replChar] else replChar :: utf8Decode [c1]
      | [c1, c2] =>
        if contOk b c1 then
          if isCont c2 then [replChar] else replChar :: utf8Decode [c2]
        else replChar :: utf8Decode [c1, c2]
      | c1 :: c2 :: c3 :: r =>
        if contOk b c1 then
          if isCont c2 then
            if isCont c3 then
              Char.ofNat ((b - 0xF0) * 0x40000 + (c1 - 0x80) * 0x1000 +
                (c2 - 0x80) * 0x40 + (c3 - 0x80)) :: utf8Decode r
            else replChar :: utf8Decode (c3 :: r)
          else replChar :: utf8Decode (c2 :: c3 :: r)
        else replChar :: utf8Decode (c1 :: c2 :: c3 :: r)
    else replChar :: utf8Decode rest

/-- UTF-8 encoding of one character (str.encode of utf-8, per code point). -/
def utf8EncodeChar (c : Char) : List Nat :=
  let n := c.toNat
  if n < 0x80 then [n]
  else if n < 0x800 then [0xC0 + n / 0x40, 0x80 + n % 0x40]
  else if n < 0x10000 then [0xE0 + n / 0x1000, 0x80 + n / 0x40 % 0x40, 0x80 + n % 0x40]
  else [0xF0 + n / 0x40000, 0x80 + n / 0x1000 % 0x40, 0x80 + n / 0x40 % 0x40, 0x80 + n % 0x40]

/-- str.encode of utf-8. -/
def utf8Encode (s : String) : List Nat :=
  (s.data.map utf8EncodeChar).flatten

/-! ## The binary shortcut parser (NonSteamManager.parse_binary_vdf) -/

/-- A decoded VDF value: NUL-terminated string, unsigned 32-bit
little-endian integer, or nested map. -/
inductive VDFValue : Type where
  | str : String → VDFValue
  | int : Nat → VDFValue
  | map : List (String × VDFValue) → VDFValue

/-- One decoded keyed map. -/
abbrev VDFMap := List (String × VDFValue)

/-- read_string: find the next NUL from position p, decode the bytes
before it as UTF-8 with replacement, and return the position after the
NUL; an unterminated string raises ValueError (modelled as error). -/
def read_string (d : List Nat) (p : Nat) : Except Unit (String × Nat) :=
  match (d.drop p).findIdx? (fun b => b == 0) with
  | none => .error ()
  | some i => .ok (String.mk (utf8Decode ((d.drop p).take i)), p + i + 1)

/-- Four raw bytes at p as an unsigned 32-bit little-endian integer
(struct.unpack of the format for one unsigned little-endian 32-bit int). -/
def le32 (d : List Nat) (p : Nat) : Nat :=
  d.getD p 0 + 0x100 * d.getD (p + 1) 0 + 0x10000 * d.getD (p + 2) 0 +
    0x1000000 * d.getD (p + 3) 0

/-- parse_map: the while loop of NonSteamManager.parse_binary_vdf.parse_map
with the accumulated dict res made explicit.  Each loop iteration and each
nested-map recursion consumes one unit of fuel; running out of fuel models
Python's RecursionError (caught at the top level like every other error).
Sub-byte 0x08 ends the map; a key read failure, a truncated buffer, a
truncated 4-byte integer, or an unknown type byte break out of the loop
returning the accumulated map; only a value read failure at a 0x01 entry
propagates an error. -/
def parse_map (fuel : Nat) (d : List Nat) (p : Nat) (res : VDFMap) :
    Except Unit (VDFMap × Nat) :=
  match fuel with
  | 0 => .error ()
  | fuel + 1 =>
    if hp : p < d.length then
      let t := d.get ⟨p, hp⟩
      if t == 0x08 then .ok (res, p + 1)
      else if d.length ≤ p + 1 then .ok (res, p + 1)
      else
        match read_string d (p + 1) with
        | .error _ => .ok (res, p + 1)
        | .ok (key, p2) =>
          if t == 0x00 then
            match parse_map fuel d p2 [] with
            | .error e => .error e
            | .ok (sub, p3) => parse_map fuel d p3 (upsert res key (.map sub))
          else if t == 0x01 then
            match read_string d p2 with
            | .error e => .error e
            | .ok (v, p3) => parse_map fuel d p3 (upsert res key (.str v))
          else if t == 0x02 then
            if d.length < p2 + 4 then .ok (res, p2)
            else parse_map fuel d (p2 + 4) (upsert res key (.int (le32 d p2)))
          else .ok (res, p2)
    else .ok (res, p)

/-- Collect the values of a root map that are themselves maps. -/
def mapsOf (rm : VDFMap) : List VDFMap :=
  rm.filterMap (fun kv => match kv.2 with | .map m => some m | _ => none)

/-- First parse attempt: buffer starts with type byte 0x00 followed by the
key shortcuts, then one root map.  Returns some items when that shape was
found (the early return), none when the shape did not match (control falls
through to the fallback), and an error when a read raised. -/
def vdfFirstTry (data : List Nat) : Except Unit (Option (List VDFMap)) :=
  match data with
  | [] => .ok none
  | b :: _ =>
    if b == 0x00 then
      match read_string data 1 with
      | .error e => .error e
      | .ok (key, p) =>
        if key == "shortcuts" then
          match parse_map (data.length + 1) data p [] with
          | .error e => .error e
          | .ok (rm, _) => .ok (some (mapsOf rm))
        else .ok none
    else .ok none

/-- Second parse attempt: parse the whole buffer as one root map and keep
the values that are maps; any error is swallowed, yielding the empty list
(no map value was appended before the raise). -/
def vdfFallback (data : List Nat) : List VDFMap :=
  match parse_map (data.length + 1) data 0 [] with
  | .error _ => []
  | .ok (rm, _) => mapsOf rm

/-- parse_binary_vdf.  The result is an Except so that an uncaught raise
would be visible to the caller as an error value; the two try blocks of
the source catch everything, so both attempts degrade to the fallback or
to the empty list. -/
def parse_binary_vdf (data : List Nat) : Except Unit (List VDFMap) :=
  match data with
  | [] => .ok []
  | _ :: _ =>
    match vdfFirstTry data with
    | .ok (some items) => .ok items
    | .ok none => .ok (vdfFallback data)
    | .error _ => .ok (vdfFallback data)

/-! ## CRC-32 and shortcut id derivation (NonSteamManager.get_non_steam_ids) -/

/-- One shift step of the reflected CRC-32 with polynomial 0xEDB88320. -/
def crcShift (c : Nat) : Nat :=
  if c &&& 1 == 1 then (c >>> 1) ^^^ 0xEDB88320 else c >>> 1

/-- Iterate the shift step k times. -/
def crcShifts : Nat → Nat → Nat
  | 0, c => c
  | k + 1, c => crcShifts k (crcShift c)

/-- Fold one byte into the running CRC. -/
def crcByte (c b : Nat) : Nat := crcShifts 8 (c ^^^ b)

/-- zlib.crc32 over a byte list (initial value 0xFFFFFFFF, final
complement), always below 2 to the 32. -/
def crc32 (bs : List Nat) : Nat :=
  (bs.foldl crcByte 0xFFFFFFFF) ^^^ 0xFFFFFFFF

/-- Python truthiness of a decoded VDF value (nonempty string, nonzero
integer, nonempty map). -/
def truthy : VDFValue → Bool
  | .str s => !(s == "")
  | .int n => !(n == 0)
  | .map m => !m.isEmpty

/-- The id registrations one decoded shortcut record performs, in order,
together with an error flag (lines 243 to 259 of the source).  The
explicit appid entry, when present and an integer, registers its value
masked to 32 bits; a non-integer appid value raises TypeError at the mask
(error flag, nothing further registered).  Independently, when both
AppName and Exe are truthy, the string concatenation Exe then AppName is
encoded as UTF-8, its CRC-32 is taken, bit 31 is set, and the result is
registered; non-string operands raise TypeError at the concatenation. -/
def itemRegs (item : VDFMap) : List (String × VDFValue) × Bool :=
  let app_name := (List.lookup "AppName" item).getD (.str "")
  let exe_path := (List.lookup "Exe" item).getD (.str "")
  let step1 : List (String × VDFValue) × Bool :=
    match List.lookup "appid" item with
    | none => ([], false)
    | some (.int n) => ([(toString (n &&& 0xFFFFFFFF), app_name)], false)
    | some _ => ([], true)
  match step1 with
  | (regs, true) => (regs, true)
  | (regs, false) =>
    if truthy app_name && truthy exe_path then
      match exe_path, app_name with
      | .str e, .str a =>
        (regs ++ [(toString ((crc32 (utf8Encode (e ++ a))) ||| 0x80000000), .str a)], false)
      | _, _ => (regs, true)
    else (regs, false)

/-- Apply one record's registrations to the shared mapping (dict
assignments in order); the error flag aborts the enclosing loop. -/
def nonSteamStep (m : List (String × VDFValue)) (item : VDFMap) :
    List (String × VDFValue) × Bool :=
  let (regs, err) := itemRegs item
  (regs.foldl (fun acc kv => upsert acc kv.1 kv.2) m, err)

/-- Process the decoded records of one shortcuts file: a raised TypeError
aborts the remaining records of that file, keeping the registrations made
so far (the per-file try block of the source catches it). -/
def processItems (m : List (String × VDFValue)) : List VDFMap → List (String × VDFValue)
  | [] => m
  | item :: rest =>
    match nonSteamStep m item with
    | (m2, true) => m2
    | (m2, false) => processItems m2 rest

/-! ## Library root discovery (DataManager.get_steam_libraries) -/

/-- str.replace of a doubled backslash by a single one, left to right. -/
def unescapeBSChars : List Char → List Char
  | [] => []
  | '\\' :: '\\' :: rest => '\\' :: unescapeBSChars rest
  | c :: rest => c :: unescapeBSChars rest

/-- Unescape doubled backslashes in a path value. -/
def unescapeBS (s : String) : String := String.mk (unescapeBSChars s.data)

/-- Split a character list at slashes. -/
def splitSlash : List Char → List (List Char)
  | [] => [[]]
  | c :: rest =>
    let gs := splitSlash rest
    if c == '/' then [] :: gs
    else
      match gs with
      | [] => [[c]]
      | g :: t => (c :: g) :: t

/-- The string a pathlib PurePosixPath built from s compares as: spurious
slashes and single-dot components are collapsed (so trailing separators
disappear), a leading double slash is kept only when it is exactly double,
and the empty path becomes a dot.  Path equality on POSIX is equality of
this normalized string. -/
def pyPathNorm (s : String) : String :=
  let cs := s.data
  let slashes := (cs.takeWhile (fun c => c == '/')).length
  let root : List Char :=
    if slashes == 2 then ['/', '/'] else if 1 ≤ slashes then ['/'] else []
  let comps := (splitSlash cs).filter (fun g => !g.isEmpty && !(g == ['.']))
  if root.isEmpty && comps.isEmpty then "."
  else String.mk (root ++ List.intercalate ['/'] comps)

/-- Python regex whitespace class, ASCII part. -/
def isSpaceCh (c : Char) : Bool :=
  c == ' ' || c == '\t' || c == '\n' || c == '\r' || c == '\x0B' || c == '\x0C'

/-- ASCII decimal digit. -/
def isDigitCh (c : Char) : Bool := '0' ≤ c && c ≤ '9'

/-- Match a literal character sequence, returning the remainder. -/
def dropLit : List Char → List Char → Option (List Char)
  | [], cs => some cs
  | _ :: _, [] => none
  | l :: ls, c :: cs => if l == c then dropLit ls cs else none

/-- Match, at the head of the input, the pattern: literal quoted path key,
one or more whitespace characters, then a quoted value captured lazily
(the dot of the pattern does not cross a newline).  Returns the capture
and the remainder after the closing quote. -/
def matchPathAt (cs : List Char) : Option (String × List Char) :=
  match dropLit "\"path\"".data cs with
  | none => none
  | some r1 =>
    let (ws, r2) := r1.span isSpaceCh
    if ws.isEmpty then none
    else
      match r2 with
      | '"' :: r3 =>
        let (cap, r4) := r3.span (fun c => !(c == '"'))
        if cap.any (fun c => c == '\n') then none
        else
          match r4 with
          | '"' :: r5 => some (String.mk cap, r5)
          | _ => none
      | _ => none

/-- re.findall of the path pattern: scan left to right, non-overlapping,
resuming after each match. -/
def findAllPathsFrom : Nat → List Char → List String
  | 0, _ => []
  | _, [] => []
  | f + 1, cs@(_ :: t) =>
    match matchPathAt cs with
    | some (s, rest) => s :: findAllPathsFrom f rest
    | none => findAllPathsFrom f t

/-- All quoted values following a path key in the registry file text. -/
def findAllPathVals (content : String) : List String :=
  findAllPathsFrom content.data.length content.data

/-- get_steam_libraries: the primary root first when it exists, then each
extracted path, unescaped, turned into a Path (compared and listed in
normalized form), appended when it exists on disk and is not already in
the list.  A missing or unreadable registry file contributes nothing. -/
def getSteamLibraries (steamBase : String) (baseExists : Bool)
    (vdfContent : Option String) (existsOnDisk : String → Bool) : List String :=
  let libs := if baseExists then [pyPathNorm steamBase] else []
  match vdfContent with
  | none => libs
  | some content =>
    (findAllPathVals content).foldl
      (fun acc m =>
        let q := pyPathNorm (unescapeBS m)
        if existsOnDisk q && !(acc.contains q) then acc ++ [q] else acc)
      libs

/-! ## Manifest indexing (ScanWorker.run, lines 735 to 747) -/

/-- Match, at the head of the input: literal quoted appid key, one or more
whitespace characters, a quote, one or more digits (captured), a quote. -/
def matchAppidAt (cs : List Char) : Option String :=
  match dropLit "\"appid\"".data cs with
  | none => none
  | some r1 =>
    let (ws, r2) := r1.span isSpaceCh
    if ws.isEmpty then none
    else
      match r2 with
      | '"' :: r3 =>
        let (ds, r4) := r3.span isDigitCh
        if ds.isEmpty then none
        else
          match r4 with
          | '"' :: _ => some (String.mk ds)
          | _ => none
      | _ => none

/-- Match, at the head of the input: literal quoted name key, one or more
whitespace characters, a quote, one or more non-quote characters
(captured), a quote. -/
def matchNameAt (cs : List Char) : Option String :=
  match dropLit "\"name\"".data cs with
  | none => none
  | some r1 =>
    let (ws, r2) := r1.span isSpaceCh
    if ws.isEmpty then none
    else
      match r2 with
      | '"' :: r3 =>
        let (cap, r4) := r3.span (fun c => !(c == '"'))
        if cap.isEmpty then none
        else
          match r4 with
          | '"' :: _ => some (String.mk cap)
          | _ => none
      | _ => none

/-- re.search: leftmost match of the matcher. -/
def searchFirst (f : List Char → Option String) : List Char → Option String
  | [] => f []
  | cs@(_ :: t) =>
    match f cs with
    | some s => some s
    | none => searchFirst f t

/-- First appid field of a manifest text. -/
def searchAppid (content : String) : Option String := searchFirst matchAppidAt content.data

/-- First name field of a manifest text. -/
def searchName (content : String) : Option String := searchFirst matchNameAt content.data

/-- The entry one manifest file contributes: none without a recognizable
appid; otherwise the appid paired with the matched name, or the literal
placeholder built from the appid when no name field matched. -/
def acfEntry (content : String) : Option (String × String) :=
  match searchAppid content with
  | none => none
  | some aid => some (aid, (searchName content).getD ("AppID " ++ aid))

/-! ## The scan pipeline (ScanWorker.run) -/

/-- One directory entry of a compatdata listing. -/
structure DirEnt where
  dname : String
  isDir : Bool
  readable : Bool
deriving DecidableEq, Repr

/-- One library root as the scan sees it: its path, whether its steamapps
directory exists together with the texts of its manifest files, and
whether its compatdata directory exists, is accessible, and what it
contains. -/
structure LibRoot where
  path : String
  appsPathExists : Bool
  acfs : List String
  compatExists : Bool
  compatAccessOk : Bool
  dirListing : List DirEnt

/-- The merged appid-to-name map over every root's manifests, in locator
order, later roots overwriting earlier ones (the installed_games dict). -/
def scanManifests (libs : List LibRoot) : List (String × String) :=
  libs.foldl
    (fun m lib =>
      if lib.appsPathExists then
        lib.acfs.foldl
          (fun m c =>
            match acfEntry c with
            | none => m
            | some (aid, nm) => upsert m aid nm) m
      else m) []

/-- The output record for one prefix directory. -/
structure PrefixRec where
  appid : String
  name : String
  path : String
  status : String
  is_installed : Bool
deriving DecidableEq, Repr

/-- The fixed ignore set of platform and runtime pseudo-applications. -/
def IGNORE_APPIDS : List String := ["0", "228980", "1070560", "1391110", "1628350"]

/-- str.isdigit: nonempty and all digits. -/
def pyIsDigit (s : String) : Bool := !s.data.isEmpty && s.data.all isDigitCh

/-- fetch_steam_name: the remote lookup abstracted as a function giving
some name on full success and none on any failure (bad status, timeout,
malformed body, missing fields); failure degrades to the placeholder. -/
def fetch_steam_name (fetch : String → Option String) (appid : String) : String :=
  match fetch appid with
  | some n => n
  | none => "AppID " ++ appid

/-- Process one prefix directory (lines 763 to 802): resolve the status by
the chain custom_status, manifest map, shortcut map, default false; then
the name by the chain custom_names, manifest map, shortcut map, api_cache,
remote lookup, where a fetched name is written into the cache exactly when
it does not contain the substring AppID.  Returns the updated cache and
the record. -/
def processDir (custom_names : List (String × String))
    (custom_status : List (String × Bool))
    (installed_games : List (String × String))
    (non_steam_games : List (String × String))
    (fetch : String → Option String) (cache : List (String × String))
    (libPath : String) (dn : String) : List (String × String) × PrefixRec :=
  let is_installed :=
    match List.lookup dn custom_status with
    | some b => b
    | none =>
      if (List.lookup dn installed_games).isSome then true
      else if (List.lookup dn non_steam_games).isSome then true
      else false
  let status := if is_installed then "Installed" else "Uninstalled"
  let step :=
    match List.lookup dn custom_names with
    | some n => (cache, n)
    | none =>
      match List.lookup dn installed_games with
      | some n => (cache, n)
      | none =>
        match List.lookup dn non_steam_games with
        | some n => (cache, n)
        | none =>
          match List.lookup dn cache with
          | some n => (cache, n)
          | none =>
            let fetched := fetch_steam_name fetch dn
            (if containsSub "AppID".data fetched.data then cache
             else upsert cache dn fetched, fetched)
  (step.1, ⟨dn, step.2, libPath ++ "/steamapps/compatdata/" ++ dn, status, is_installed⟩)

/-- The whole scan's inputs: the three override-store maps, the shortcut
derived map, the library roots with their contents, and the remote lookup. -/
structure ScanInput where
  custom_names : List (String × String)
  custom_status : List (String × Bool)
  api_cache : List (String × String)
  non_steam_games : List (String × String)
  libs : List LibRoot
  fetch : String → Option String

/-- Scan one library root (lines 749 to 804): skip it when compatdata is
absent or not both readable and traversable; otherwise visit each
numeric-named directory entry, skipping ignored appids and unreadable
directories, threading the api_cache and appending records in order. -/
def scanLib (inp : ScanInput) (installed_games : List (String × String))
    (st : List (String × String) × List PrefixRec) (lib : LibRoot) :
    List (String × String) × List PrefixRec :=
  if !lib.compatExists then st
  else if !lib.compatAccessOk then st
  else
    (lib.dirListing.filter (fun d => d.isDir && pyIsDigit d.dname)).foldl
      (fun st d =>
        if IGNORE_APPIDS.contains d.dname then st
        else if !d.readable then st
        else
          let pr := processDir inp.custom_names inp.custom_status installed_games
            inp.non_steam_games inp.fetch st.1 lib.path d.dname
          (pr.1, st.2 ++ [pr.2]))
      st

/-- Deduplication loop (lines 809 to 817) with the insertion-ordered dict
unique_prefixes explicit: a record whose appid is new is appended; an
already-seen appid replaces the kept record in place exactly when the new
record is installed and the kept one is not. -/
def dedupGo : List PrefixRec → List PrefixRec → List PrefixRec
  | acc, [] => acc
  | acc, p :: ps =>
    if acc.any (fun q => q.appid == p.appid) then
      dedupGo (acc.map (fun q =>
        if q.appid == p.appid && p.is_installed && !q.is_installed then p else q)) ps
    else dedupGo (acc ++ [p]) ps

/-- Deduplicate the scanned records by appid. -/
def dedup (l : List PrefixRec) : List PrefixRec := dedupGo [] l

/-- str.lower of a name, per character. -/
def pyLower (s : String) : List Char := s.data.map Char.toLower

/-- Code-point lexicographic comparison of character lists (Python string
comparison). -/
def lexLe : List Char → List Char → Bool
  | [], _ => true
  | _ :: _, [] => false
  | a :: as, b :: bs =>
    if a.toNat < b.toNat then true
    else if b.toNat < a.toNat then false
    else lexLe as bs

/-- First sort-key component: not is_installed as 0 or 1. -/
def sortKeyFst (r : PrefixRec) : Nat := if r.is_installed then 0 else 1

/-- The sort comparison of line 819: the pair of not is_installed and the
lowercased name, compared lexicographically. -/
def recLe (a b : PrefixRec) : Bool :=
  decide (sortKeyFst a < sortKeyFst b) ||
    (sortKeyFst a == sortKeyFst b && lexLe (pyLower a.name) (pyLower b.name))

/-- Stable insertion of a later element after every kept element that
compares at most it. -/
def insertRec (x : PrefixRec) : List PrefixRec → List PrefixRec
  | [] => [x]
  | y :: ys => if recLe y x then y :: insertRec x ys else x :: y :: ys

/-- list.sort with the key of line 819: a stable sort realized as
left-to-right stable insertion. -/
def sortRecs (l : List PrefixRec) : List PrefixRec :=
  l.foldl (fun acc x => insertRec x acc) []

/-- The whole scan: build the manifest map, walk every library threading
the api_cache, then deduplicate and sort.  Returns the emitted list and
the api_cache persisted at the end. -/
def scanRun (inp : ScanInput) : List PrefixRec × List (String × String) :=
  let installed_games := scanManifests inp.libs
  let st := inp.libs.foldl (scanLib inp installed_games) (inp.api_cache, [])
  (sortRecs (dedup st.2), st.1)

/-! ## Spec-side definitions (following the specification's words, for
comparison with the code-derived functions) -/

/-- The record the deduplication is specified to keep for an appid: the
first record seen, unless a later record is installed while the kept one
is not, in which case that installed record replaces it. -/
def dedupKeptSpec (aid : String) (l : List PrefixRec) : Option PrefixRec :=
  match l.find? (fun r => r.appid == aid) with
  | none => none
  | some first =>
    some (match (l.filter (fun r => r.appid == aid)).find? (fun r => r.is_installed) with
          | some inst => inst
          | none => first)

/-- The specified output order: every installed record before every
uninstalled one, and names in ascending case-insensitive lexicographic
order within each of the two groups. -/
def sortedClaim (a b : PrefixRec) : Prop :=
  (a.is_installed = false → b.is_installed = false) ∧
  (a.is_installed = b.is_installed → lexLe (pyLower a.name) (pyLower b.name) = true)

/-- The specified status priority chain for an appid. -/
def statusChain (custom_status : List (String × Bool))
    (installed_games non_steam_games : List (String × String)) (aid : String) : Bool :=
  match List.lookup aid custom_status with
  | some b => b
  | none =>
    if (List.lookup aid installed_games).isSome then true
    else if (List.lookup aid non_steam_games).isSome then true
    else false

/-- The specified name priority chain for an appid, over the cache as
loaded at the start of the scan. -/
def nameChain (custom_names installed_games non_steam_games cache0 : List (String × String))
    (fetch : String → Option String) (aid : String) : String :=
  match List.lookup aid custom_names with
  | some n => n
  | none =>
    match List.lookup aid installed_games with
    | some n => n
    | none =>
      match List.lookup aid non_steam_games with
      | some n => n
      | none =>
        match List.lookup aid cache0 with
        | some n => n
        | none => fetch_steam_name fetch aid

/-- Relation between the cache as loaded (cache0) and the evolving cache
during the scan: entries present at load time are preserved unchanged,
and every other entry is a successful fetch result free of the AppID
substring. -/
def cacheInv (cache0 : List (String × String)) (fetch : String → Option String)
    (cache : List (String × String)) : Prop :=
  (∀ aid v, List.lookup aid cache0 = some v → List.lookup aid cache = some v) ∧
  (∀ aid v, List.lookup aid cache = some v →
    List.lookup aid cache0 = some v ∨
      (List.lookup aid cache0 = none ∧ v = fetch_steam_name fetch aid ∧
       containsSub "AppID".data v.data = false))

/-- The name chain for this appid falls all the way through to the remote
lookup. -/
def fetchReached (inp : ScanInput) (installed_games : List (String × String))
    (aid : String) : Prop :=
  List.lookup aid inp.custom_names = none ∧ List.lookup aid installed_games = none ∧
  List.lookup aid inp.non_steam_games = none ∧ List.lookup aid inp.api_cache = none

/-- What the claims assert of every scanned record: its status and name
follow the priority chains over the initial cache, and its appid is not
ignored. -/
def recSpec (inp : ScanInput) (installed_games : List (String × String))
    (r : PrefixRec) : Prop :=
  r.is_installed = statusChain inp.custom_status installed_games inp.non_steam_games r.appid ∧
  r.name = nameChain inp.custom_names installed_games inp.non_steam_games inp.api_cache
    inp.fetch r.appid ∧
  IGNORE_APPIDS.contains r.appid = false

/-- Invariant carried through the scan's fold over libraries and
directories. -/
def scanStInv (inp : ScanInput) (installed_games : List (String × String))
    (st : List (String × String) × List PrefixRec) : Prop :=
  cacheInv inp.api_cache inp.fetch st.1 ∧
  (∀ r ∈ st.2, recSpec inp installed_games r) ∧
  (∀ r ∈ st.2, fetchReached inp installed_games r.appid →
     containsSub "AppID".data (fetch_steam_name inp.fetch r.appid).data = false →
     List.lookup r.appid st.1 = some (fetch_steam_name inp.fetch r.appid)) ∧
  (∀ aid, List.lookup aid inp.api_cache = none →
     containsSub "AppID".data (fetch_steam_name inp.fetch aid).data = true →
     List.lookup aid st.1 = none)

/-- The position at which parse_map returns when it meets an unknown type
byte at p: past the type byte when the buffer ends there or the key read
fails, otherwise past the key it had already consumed. -/
def unknownStop (d : List Nat) (p : Nat) : Nat :=
  if d.length ≤ p + 1 then p + 1
  else
    match read_string d (p + 1) with
    | .error _ => p + 1
    | .ok (_, p2) => p2

/-! ## Concrete inputs used by witness and counterexample theorems -/

/-- A decoded shortcut record carrying both an explicit 33-bit identifier
and a name and executable path. -/
def itemC5 : VDFMap :=
  [("appid", VDFValue.int 4294967303), ("AppName", VDFValue.str "Game"),
   ("Exe", VDFValue.str "/bin/game")]

/-- One library root: a manifest with an appid but no name, and three
prefix directories of which one is in the ignore set. -/
def libW : LibRoot :=
  { path := "/R", appsPathExists := true, acfs := ["\"appid\" \"42\""],
    compatExists := true, compatAccessOk := true,
    dirListing := [⟨"0", true, true⟩, ⟨"5", true, true⟩, ⟨"42", true, true⟩] }

/-- A small scan input with empty override store and a failing remote
lookup. -/
def inpW : ScanInput :=
  { custom_names := [], custom_status := [], api_cache := [], non_steam_games := [],
    libs := [libW], fetch := fun _ => none }

/-- The record inpW produces for directory 5. -/
def recW : PrefixRec := ⟨"5", "AppID 5", "/R/steamapps/compatdata/5", "Uninstalled", false⟩

/-- The record inpW produces for directory 42. -/
def rec42 : PrefixRec := ⟨"42", "AppID 42", "/R/steamapps/compatdata/42", "Installed", true⟩

/-- A scan input whose remote lookup succeeds with a name that is not the
placeholder but contains the substring AppID. -/
def inpC3 : ScanInput :=
  { custom_names := [], custom_status := [], api_cache := [], non_steam_games := [],
    libs := [{ path := "/R", appsPathExists := false, acfs := [],
               compatExists := true, compatAccessOk := true,
               dirListing := [⟨"10", true, true⟩] }],
    fetch := fun a => if a == "10" then some "An AppID Story" else none }

/-- The record inpC3 produces for directory 10. -/
def recC3 : PrefixRec :=
  ⟨"10", "An AppID Story", "/R/steamapps/compatdata/10", "Uninstalled", false⟩

/-- Registry text with two path values naming the same directory, one
with a trailing separator. -/
def contentC8 : String := "\"path\" \"/lib\" \"path\" \"/lib/\""

/-- An installed and an uninstalled record sharing one appid. -/
def rC1a : PrefixRec := ⟨"77", "G1", "p1", "Installed", true⟩

/-- The uninstalled partner of rC1a. -/
def rC1b : PrefixRec := ⟨"77", "G2", "p2", "Uninstalled", false⟩

/-! ## Helper lemmas: the sort comparison is a total preorder -/

theorem lexLe_nil_left (b : List Char) : lexLe [] b = true := by
  simp [lexLe]

theorem lexLe_total : ∀ a b : List Char, lexLe a b = true ∨ lexLe b a = true := by
  intro a
  induction a with
  | nil => intro b; left; exact lexLe_nil_left b
  | cons x xs ih =>
    intro b
    cases b with
    | nil => right; exact lexLe_nil_left _
    | cons y ys =>
      simp only [lexLe]
      rcases Nat.lt_trichotomy x.toNat y.toNat with h | h | h
      · left; simp [h]
      · have h1 : ¬ x.toNat < y.toNat := by omega
        have h2 : ¬ y.toNat < x.toNat := by omega
        simp only [if_neg h1, if_neg h2]
        exact ih ys
      · right; simp [h]

theorem lexLe_trans : ∀ a b c : List Char,
    lexLe a b = true → lexLe b c = true → lexLe a c = true := by
  intro a
  induction a with
  | nil => intro b c _ _; exact lexLe_nil_left c
  | cons x xs ih =>
    intro b c hab hbc
    cases b with
    | nil => simp [lexLe] at hab
    | cons y ys =>
      cases c with
      | nil => simp [lexLe] at hbc
      | cons z zs =>
        simp only [lexLe] at hab hbc ⊢
        by_cases h1 : x.toNat < y.toNat
        · by_cases h2 : y.toNat < z.toNat
          · simp [show x.toNat < z.toNat by omega]
          · simp only [if_neg h2] at hbc
            by_cases h3 : z.toNat < y.toNat
            · simp [h3] at hbc
            · simp [show x.toNat < z.toNat by omega]
        · simp only [if_neg h1] at hab
          by_cases h4 : y.toNat < x.toNat
          · simp [h4] at hab
          · simp only [if_neg h4] at hab
            by_cases h2 : y.toNat < z.toNat
            · simp [show x.toNat < z.toNat by omega]
            · simp only [if_neg h2] at hbc
              by_cases h3 : z.toNat < y.toNat
              · simp [h3] at hbc
              · simp only [if_neg h3] at hbc
                have h5 : ¬ x.toNat < z.toNat := by omega
                have h6 : ¬ z.toNat < x.toNat := by omega
                simp only [if_neg h5, if_neg h6]
                exact ih ys zs hab hbc

theorem recLe_total : ∀ a b : PrefixRec, recLe a b = true ∨ recLe b a = true := by
  intro a b
  simp only [recLe, Bool.or_eq_true, Bool.and_eq_true, decide_eq_true_eq, beq_iff_eq]
  rcases Nat.lt_trichotomy (sortKeyFst a) (sortKeyFst b) with h | h | h
  · left; left; exact h
  · rcases lexLe_total (pyLower a.name) (pyLower b.name) with h2 | h2
    · left; right; exact ⟨h, h2⟩
    · right; right; exact ⟨h.symm, h2⟩
  · right; left; exact h

theorem recLe_trans : ∀ a b c : PrefixRec,
    recLe a b = true → recLe b c = true → recLe a c = true := by
  intro a b c hab hbc
  simp only [recLe, Bool.or_eq_true, Bool.and_eq_true, decide_eq_true_eq, beq_iff_eq] at hab hbc ⊢
  rcases hab with h1 | ⟨h1, h1l⟩
  · rcases hbc with h2 | ⟨h2, _⟩
    · left; omega
    · left; omega
  · rcases hbc with h2 | ⟨h2, h2l⟩
    · left; omega
    · right; exact ⟨h1.trans h2, lexLe_trans _ _ _ h1l h2l⟩

theorem mem_insertRec : ∀ (l : List PrefixRec) (x z : PrefixRec),
    z ∈ insertRec x l ↔ z = x ∨ z ∈ l := by
  intro l x z
  induction l with
  | nil => simp [insertRec]
  | cons y ys ih =>
    simp only [insertRec]
    by_cases h : recLe y x = true
    · simp only [if_pos h, List.mem_cons, ih]
      tauto
    · simp only [if_neg h, List.mem_cons]

theorem pairwise_insertRec : ∀ (l : List PrefixRec) (x : PrefixRec),
    l.Pairwise (fun a b => recLe a b = true) →
    (insertRec x l).Pairwise (fun a b => recLe a b = true) := by
  intro l x hl
  induction l with
  | nil => simp [insertRec]
  | cons y ys ih =>
    rcases List.pairwise_cons.1 hl with ⟨hy, hys⟩
    simp only [insertRec]
    by_cases h : recLe y x = true
    · simp only [if_pos h]
      refine List.pairwise_cons.2 ⟨?_, ih hys⟩
      intro z hz
      rcases (mem_insertRec ys x z).1 hz with rfl | hz2
      · exact h
      · exact hy z hz2
    · simp only [if_neg h]
      have hxy : recLe x y = true := by
        rcases recLe_total x y with h2 | h2
        · exact h2
        · exact absurd h2 h
      refine List.pairwise_cons.2 ⟨?_, hl⟩
      intro z hz
      rcases List.mem_cons.1 hz with rfl | hz2
      · exact hxy
      · exact recLe_trans _ _ _ hxy (hy z hz2)

theorem sortRecs_aux_pairwise : ∀ (l acc : List PrefixRec),
    acc.Pairwise (fun a b => recLe a b = true) →
    (l.foldl (fun acc x => insertRec x acc) acc).Pairwise (fun a b => recLe a b = true) := by
  intro l
  induction l with
  | nil => intro acc h; exact h
  | cons x xs ih =>
    intro acc h
    exact ih (insertRec x acc) (pairwise_insertRec acc x h)

theorem sortRecs_pairwise (l : List PrefixRec) :
    (sortRecs l).Pairwise (fun a b => recLe a b = true) :=
  sortRecs_aux_pairwise l [] (List.Pairwise.nil)

theorem mem_sortRecs_aux : ∀ (l acc : List PrefixRec) (z : PrefixRec),
    z ∈ l.foldl (fun acc x => insertRec x acc) acc ↔ z ∈ acc ∨ z ∈ l := by
  intro l
  induction l with
  | nil => simp
  | cons x xs ih =>
    intro acc z
    simp only [List.foldl_cons, ih, mem_insertRec, List.mem_cons]
    tauto

theorem mem_sortRecs (l : List PrefixRec) (z : PrefixRec) :
    z ∈ sortRecs l ↔ z ∈ l := by
  simpa using mem_sortRecs_aux l [] z

/-! ## Helper lemmas: deduplication -/

theorem replace_appid (p q : PrefixRec) :
    (if q.appid == p.appid && p.is_installed && !q.is_installed then p else q).appid = q.appid := by
  by_cases h : (q.appid == p.appid && p.is_installed && !q.is_installed) = true
  · rw [if_pos h]
    simp only [Bool.and_eq_true] at h
    exact (beq_iff_eq.1 h.1.1).symm
  · rw [if_neg h]

theorem dedupGo_pairwise_ne : ∀ (l acc : List PrefixRec),
    acc.Pairwise (fun a b => a.appid ≠ b.appid) →
    (dedupGo acc l).Pairwise (fun a b => a.appid ≠ b.appid) := by
  intro l
  induction l with
  | nil => intro acc h; exact h
  | cons p ps ih =>
    intro acc h
    simp only [dedupGo]
    by_cases hany : acc.any (fun q => q.appid == p.appid) = true
    · simp only [if_pos hany]
      refine ih _ ?_
      rw [List.pairwise_map]
      refine h.imp ?_
      intro a b hab
      rw [replace_appid, replace_appid]
      exact hab
    · simp only [if_neg hany]
      refine ih _ ?_
      rw [List.pairwise_append]
      refine ⟨h, List.pairwise_singleton _ _, ?_⟩
      intro a ha b hb
      rcases List.mem_singleton.1 hb with rfl
      intro hcon
      exact hany (List.any_eq_true.2 ⟨a, ha, beq_iff_eq.2 hcon⟩)

theorem dedupGo_mem : ∀ (l acc : List PrefixRec) (r : PrefixRec),
    r ∈ dedupGo acc l → r ∈ acc ∨ r ∈ l := by
  intro l
  induction l with
  | nil => intro acc r h; exact Or.inl h
  | cons p ps ih =>
    intro acc r h
    simp only [dedupGo] at h
    by_cases hany : acc.any (fun q => q.appid == p.appid) = true
    · rw [if_pos hany] at h
      rcases ih _ r h with h2 | h2
      · rcases List.mem_map.1 h2 with ⟨q, hq, hfq⟩
        by_cases hc : (q.appid == p.appid && p.is_installed && !q.is_installed) = true
        · rw [if_pos hc] at hfq
          exact Or.inr (hfq ▸ List.mem_cons_self p ps)
        · rw [if_neg hc] at hfq
          exact Or.inl (hfq ▸ hq)
      · exact Or.inr (List.mem_cons_of_mem p h2)
    · rw [if_neg hany] at h
      rcases ih _ r h with h2 | h2
      · rcases List.mem_append.1 h2 with h3 | h3
        · exact Or.inl h3
        · rw [List.mem_singleton.1 h3]
          exact Or.inr (List.mem_cons_self p ps)
      · exact Or.inr (List.mem_cons_of_mem p h2)

theorem dedupKeptSpec_cons_ne (aid : String) (p : PrefixRec) (ps : List PrefixRec)
    (h : (p.appid == aid) = false) :
    dedupKeptSpec aid (p :: ps) = dedupKeptSpec aid ps := by
  simp [dedupKeptSpec, List.find?_cons, h, List.filter_cons]

theorem dedupGo_find (aid : String) : ∀ (l acc : List PrefixRec),
    acc.Pairwise (fun a b => a.appid ≠ b.appid) →
    (dedupGo acc l).find? (fun r => r.appid == aid) =
      match acc.find? (fun r => r.appid == aid) with
      | none => dedupKeptSpec aid l
      | some k =>
        some (if k.is_installed then k
              else
                match (l.filter (fun r => r.appid == aid)).find? (fun r => r.is_installed) with
                | some inst => inst
                | none => k) := by
  intro l
  induction l with
  | nil =>
    intro acc _
    simp only [dedupGo]
    cases hacc : acc.find? (fun r => r.appid == aid) with
    | none => simp [dedupKeptSpec]
    | some k => simp [List.find?_nil, ite_self]
  | cons p ps ih =>
    intro acc hpw
    simp only [dedupGo]
    by_cases hany : acc.any (fun q => q.appid == p.appid) = true
    · rw [if_pos hany]
      have hpwm : (acc.map (fun q =>
          if q.appid == p.appid && p.is_installed && !q.is_installed then p else q)).Pairwise
          (fun a b => a.appid ≠ b.appid) := by
        rw [List.pairwise_map]
        refine hpw.imp ?_
        intro a b hab
        rw [replace_appid, replace_appid]
        exact hab
      rw [ih _ hpwm]
      have hcomp : ((fun r => r.appid == aid) ∘ (fun q =>
          if q.appid == p.appid && p.is_installed && !q.is_installed then p else q)) =
          (fun r : PrefixRec => r.appid == aid) := by
        funext q
        simp only [Function.comp_apply]
        rw [replace_appid]
      rw [List.find?_map, hcomp]
      cases hacc : acc.find? (fun r => r.appid == aid) with
      | none =>
        have hpa : (p.appid == aid) = false := by
          by_contra hc
          rcases List.any_eq_true.1 hany with ⟨q, hqmem, hq⟩
          have h1 : q.appid = p.appid := beq_iff_eq.1 hq
          have h2 : p.appid = aid := beq_iff_eq.1 (Bool.of_not_eq_false hc)
          have h3 : ∀ x ∈ acc, ¬ (x.appid == aid) = true := List.find?_eq_none.1 hacc
          exact h3 q hqmem (beq_iff_eq.2 (h1.trans h2))
        simp only [Option.map_none']
        rw [dedupKeptSpec_cons_ne aid p ps hpa]
      | some k =>
        have hk0 := List.find?_some hacc
        have hk : (k.appid == aid) = true := hk0
        simp only [Option.map_some']
        by_cases hpa : (p.appid == aid) = true
        · have hkp : (k.appid == p.appid) = true :=
            beq_iff_eq.2 ((beq_iff_eq.1 hk).trans (beq_iff_eq.1 hpa).symm)
          by_cases hki : k.is_installed = true
          · have hfk : (if k.appid == p.appid && p.is_installed && !k.is_installed then p else k) = k := by
              simp [hki]
            rw [hfk]
            simp [hki]
          · have hkif : k.is_installed = false := Bool.eq_false_iff.2 hki
            by_cases hpi : p.is_installed = true
            · have hfk : (if k.appid == p.appid && p.is_installed && !k.is_installed then p else k) = p := by
                simp [hkp, hkif, hpi]
              rw [hfk]
              simp [List.find?_cons, List.filter_cons, hpa, hpi, hkif]
            · have hpif : p.is_installed = false := Bool.eq_false_iff.2 hpi
              have hfk : (if k.appid == p.appid && p.is_installed && !k.is_installed then p else k) = k := by
                simp [hpif]
              rw [hfk]
              simp [List.find?_cons, List.filter_cons, hpa, hpif, hkif]
        · have hpaf : (p.appid == aid) = false := Bool.eq_false_iff.2 hpa
          have hkp : (k.appid == p.appid) = false := by
            by_contra hc
            have h1 : k.appid = p.appid := beq_iff_eq.1 (Bool.of_not_eq_false hc)
            exact hpa (beq_iff_eq.2 (h1 ▸ beq_iff_eq.1 hk))
          have hfk : (if k.appid == p.appid && p.is_installed && !k.is_installed then p else k) = k := by
            simp [hkp]
          rw [hfk]
          simp [List.filter_cons, hpaf]
    · rw [if_neg hany]
      have hnotin : ∀ q ∈ acc, (q.appid == p.appid) = false := by
        intro q hq
        by_contra hc
        exact hany (List.any_eq_true.2 ⟨q, hq, Bool.of_not_eq_false hc⟩)
      have hpw2 : (acc ++ [p]).Pairwise (fun a b => a.appid ≠ b.appid) := by
        rw [List.pairwise_append]
        refine ⟨hpw, List.pairwise_singleton _ _, ?_⟩
        intro a ha b hb
        rcases List.mem_singleton.1 hb with rfl
        intro hcon
        exact absurd (beq_iff_eq.2 hcon) (by rw [hnotin a ha]; exact Bool.false_ne_true)
      rw [ih _ hpw2, List.find?_append]
      cases hacc : acc.find? (fun r => r.appid == aid) with
      | none =>
        simp only [Option.none_or]
        by_cases hpa : (p.appid == aid) = true
        · have hfp : [p].find? (fun r => r.appid == aid) = some p := by
            simp [List.find?_cons, hpa]
          rw [hfp]
          by_cases hpi : p.is_installed = true
          · simp [dedupKeptSpec, List.find?_cons, List.filter_cons, hpa, hpi]
          · have hpif : p.is_installed = false := Bool.eq_false_iff.2 hpi
            simp [dedupKeptSpec, List.find?_cons, List.filter_cons, hpa, hpif]
        · have hpaf : (p.appid == aid) = false := Bool.eq_false_iff.2 hpa
          have hfp : [p].find? (fun r => r.appid == aid) = none := by
            simp [List.find?_cons, hpaf]
          rw [hfp, dedupKeptSpec_cons_ne aid p ps hpaf]
      | some k =>
        have hk0 := List.find?_some hacc
        have hk : (k.appid == aid) = true := hk0
        have hkmem : k ∈ acc := List.mem_of_find?_eq_some hacc
        have hpaf : (p.appid == aid) = false := by
          by_contra hc
          have h1 : p.appid = aid := beq_iff_eq.1 (Bool.of_not_eq_false hc)
          have h2 : (k.appid == p.appid) = true := beq_iff_eq.2 ((beq_iff_eq.1 hk).trans h1.symm)
          rw [hnotin k hkmem] at h2
          exact Bool.false_ne_true h2
        simp only [Option.or_some]
        simp [List.filter_cons, hpaf]

/-! ## Helper lemmas: dict assignment (upsert) and lookup -/

theorem lookup_none_of_not_any {α : Type} (l : List (String × α)) (k : String)
    (h : l.any (fun kv => kv.1 == k) = false) : List.lookup k l = none := by
  induction l with
  | nil => rfl
  | cons a t ih =>
    obtain ⟨a1, a2⟩ := a
    simp only [List.any_cons, Bool.or_eq_false_iff] at h
    have hka : (k == a1) = false := by
      refine Bool.eq_false_iff.2 (fun hc => ?_)
      exact (Bool.eq_false_iff.1 h.1) (beq_iff_eq.2 (beq_iff_eq.1 hc).symm)
    rw [List.lookup_cons, hka]
    exact ih h.2

theorem lookup_map_preserve {α : Type} (l : List (String × α)) (k k2 : String) (v : α)
    (h2 : ¬ k2 = k) :
    List.lookup k2 (l.map (fun kv => if kv.1 == k then (k, v) else kv)) = List.lookup k2 l := by
  have h3 : (k2 == k) = false := Bool.eq_false_iff.2 (fun hc => h2 (beq_iff_eq.1 hc))
  induction l with
  | nil => rfl
  | cons a t ih =>
    obtain ⟨a1, a2⟩ := a
    by_cases ha : (a1 == k) = true
    · have he : a1 = k := beq_iff_eq.1 ha
      simp only [List.map_cons, if_pos (show ((a1, a2).1 == k) = true from ha)]
      have h4 : (k2 == a1) = false := by rw [he]; exact h3
      rw [List.lookup_cons, List.lookup_cons, h3, h4]
      exact ih
    · simp only [List.map_cons, if_neg (show ¬ ((a1, a2).1 == k) = true from ha)]
      rw [List.lookup_cons, List.lookup_cons]
      cases hk2 : (k2 == a1) with
      | true => rfl
      | false => exact ih

theorem lookup_map_self {α : Type} (l : List (String × α)) (k : String) (v : α)
    (hany : l.any (fun kv => kv.1 == k) = true) :
    List.lookup k (l.map (fun kv => if kv.1 == k then (k, v) else kv)) = some v := by
  induction l with
  | nil => simp at hany
  | cons a t ih =>
    obtain ⟨a1, a2⟩ := a
    by_cases ha : (a1 == k) = true
    · simp only [List.map_cons, if_pos (show ((a1, a2).1 == k) = true from ha)]
      rw [List.lookup_cons, show (k == k) = true from beq_self_eq_true k]
    · simp only [List.any_cons, Bool.or_eq_true] at hany
      rcases hany with h1 | h1
      · exact absurd h1 ha
      · simp only [List.map_cons, if_neg (show ¬ ((a1, a2).1 == k) = true from ha)]
        have h4 : (k == a1) = false := by
          refine Bool.eq_false_iff.2 (fun hc => ?_)
          exact ha (beq_iff_eq.2 (beq_iff_eq.1 hc).symm)
        rw [List.lookup_cons, h4]
        exact ih h1

theorem lookup_upsert {α : Type} (l : List (String × α)) (k k2 : String) (v : α) :
    List.lookup k2 (upsert l k v) = if k2 = k then some v else List.lookup k2 l := by
  unfold upsert
  by_cases hany : (l.any fun kv => kv.1 == k) = true
  · rw [if_pos hany]
    by_cases hk : k2 = k
    · rw [if_pos hk, hk]
      exact lookup_map_self l k v hany
    · rw [if_neg hk]
      exact lookup_map_preserve l k k2 v hk
  · rw [if_neg hany]
    rw [List.lookup_append]
    by_cases hk : k2 = k
    · rw [if_pos hk]
      have h1 : List.lookup k2 l = none := by
        rw [hk]
        exact lookup_none_of_not_any l k (Bool.eq_false_iff.2 hany)
      rw [h1]
      simp [List.lookup_cons, hk]
    · rw [if_neg hk]
      have h2 : List.lookup k2 [(k, v)] = none := by
        have h3 : (k2 == k) = false := Bool.eq_false_iff.2 (fun hc => hk (beq_iff_eq.1 hc))
        simp [List.lookup_cons, h3]
      rw [h2]
      exact Option.or_none

/-! ## Helper lemmas: one directory step of the scan -/

theorem processDir_appid (cn : List (String × String)) (cs : List (String × Bool))
    (ig nsg : List (String × String)) (fetch : String → Option String)
    (c : List (String × String)) (lp dn : String) :
    (processDir cn cs ig nsg fetch c lp dn).2.appid = dn := by
  simp only [processDir]

theorem processDir_status (cn : List (String × String)) (cs : List (String × Bool))
    (ig nsg : List (String × String)) (fetch : String → Option String)
    (c : List (String × String)) (lp dn : String) :
    (processDir cn cs ig nsg fetch c lp dn).2.is_installed = statusChain cs ig nsg dn := by
  simp only [processDir, statusChain]

theorem processDir_name (cn : List (String × String)) (cs : List (String × Bool))
    (ig nsg : List (String × String)) (fetch : String → Option String)
    (cache0 c : List (String × String)) (lp dn : String)
    (hc : cacheInv cache0 fetch c) :
    (processDir cn cs ig nsg fetch c lp dn).2.name = nameChain cn ig nsg cache0 fetch dn := by
  cases h1 : List.lookup dn cn with
  | some n => simp [processDir, nameChain, h1]
  | none =>
  cases h2 : List.lookup dn ig with
  | some n => simp [processDir, nameChain, h1, h2]
  | none =>
  cases h3 : List.lookup dn nsg with
  | some n => simp [processDir, nameChain, h1, h2, h3]
  | none =>
  cases h4 : List.lookup dn c with
  | some v =>
    rcases hc.2 dn v h4 with h5 | ⟨h5, h6, _⟩
    · simp [processDir, nameChain, h1, h2, h3, h4, h5]
    · simp [processDir, nameChain, h1, h2, h3, h4, h5, h6]
  | none =>
    have h5 : List.lookup dn cache0 = none := by
      cases h6 : List.lookup dn cache0 with
      | none => rfl
      | some w => rw [hc.1 dn w h6] at h4; exact absurd h4 (by simp)
    simp [processDir, nameChain, h1, h2, h3, h4, h5]

theorem processDir_cacheInv (cn : List (String × String)) (cs : List (String × Bool))
    (ig nsg : List (String × String)) (fetch : String → Option String)
    (cache0 c : List (String × String)) (lp dn : String)
    (hc : cacheInv cache0 fetch c) :
    cacheInv cache0 fetch (processDir cn cs ig nsg fetch c lp dn).1 := by
  cases h1 : List.lookup dn cn with
  | some n => simpa [processDir, h1] using hc
  | none =>
  cases h2 : List.lookup dn ig with
  | some n => simpa [processDir, h1, h2] using hc
  | none =>
  cases h3 : List.lookup dn nsg with
  | some n => simpa [processDir, h1, h2, h3] using hc
  | none =>
  cases h4 : List.lookup dn c with
  | some v => simpa [processDir, h1, h2, h3, h4] using hc
  | none =>
    by_cases h5 : containsSub "AppID".data (fetch_steam_name fetch dn).data = true
    · simpa [processDir, h1, h2, h3, h4, h5] using hc
    · have h5f : containsSub "AppID".data (fetch_steam_name fetch dn).data = false :=
        Bool.eq_false_iff.2 h5
      have hc0 : List.lookup dn cache0 = none := by
        cases h6 : List.lookup dn cache0 with
        | none => rfl
        | some w => rw [hc.1 dn w h6] at h4; exact absurd h4 (by simp)
      have hred : (processDir cn cs ig nsg fetch c lp dn).1 =
          upsert c dn (fetch_steam_name fetch dn) := by
        simp [processDir, h1, h2, h3, h4, h5f]
      rw [hred]
      constructor
      · intro aid v hv
        rw [lookup_upsert]
        by_cases he : aid = dn
        · rw [he] at hv; rw [hv] at hc0; exact absurd hc0 (by simp)
        · rw [if_neg he]; exact hc.1 aid v hv
      · intro aid v hv
        rw [lookup_upsert] at hv
        by_cases he : aid = dn
        · rw [if_pos he] at hv
          right
          refine ⟨he ▸ hc0, ?_, ?_⟩
          · rw [he]; exact (Option.some_inj.1 hv).symm
          · rw [Option.some_inj.1 hv] at h5f; exact h5f
        · rw [if_neg he] at hv
          exact hc.2 aid v hv

theorem processDir_cache_mono (cn : List (String × String)) (cs : List (String × Bool))
    (ig nsg : List (String × String)) (fetch : String → Option String)
    (c : List (String × String)) (lp dn aid : String) (w : String)
    (h : List.lookup aid c = some w) :
    List.lookup aid (processDir cn cs ig nsg fetch c lp dn).1 = some w := by
  cases h1 : List.lookup dn cn with
  | some n => simpa [processDir, h1] using h
  | none =>
  cases h2 : List.lookup dn ig with
  | some n => simpa [processDir, h1, h2] using h
  | none =>
  cases h3 : List.lookup dn nsg with
  | some n => simpa [processDir, h1, h2, h3] using h
  | none =>
  cases h4 : List.lookup dn c with
  | some v => simpa [processDir, h1, h2, h3, h4] using h
  | none =>
    by_cases h5 : containsSub "AppID".data (fetch_steam_name fetch dn).data = true
    · simpa [processDir, h1, h2, h3, h4, h5] using h
    · have h5f : containsSub "AppID".data (fetch_steam_name fetch dn).data = false :=
        Bool.eq_false_iff.2 h5
      have he : ¬ aid = dn := by
        intro hcon
        rw [hcon, h4] at h
        exact absurd h (by simp)
      have hred : (processDir cn cs ig nsg fetch c lp dn).1 =
          upsert c dn (fetch_steam_name fetch dn) := by
        simp [processDir, h1, h2, h3, h4, h5f]
      rw [hred, lookup_upsert, if_neg he]
      exact h

theorem processDir_new_fetch (cn : List (String × String)) (cs : List (String × Bool))
    (ig nsg : List (String × String)) (fetch : String → Option String)
    (cache0 c : List (String × String)) (lp dn : String)
    (hc : cacheInv cache0 fetch c)
    (h1 : List.lookup dn cn = none) (h2 : List.lookup dn ig = none)
    (h3 : List.lookup dn nsg = none) (h0 : List.lookup dn cache0 = none)
    (hsub : containsSub "AppID".data (fetch_steam_name fetch dn).data = false) :
    List.lookup dn (processDir cn cs ig nsg fetch c lp dn).1 =
      some (fetch_steam_name fetch dn) := by
  cases h4 : List.lookup dn c with
  | some v =>
    rcases hc.2 dn v h4 with h5 | ⟨_, h6, _⟩
    · rw [h0] at h5; exact absurd h5 (by simp)
    · simp [processDir, h1, h2, h3, h4, h6]
  | none =>
    have hred : (processDir cn cs ig nsg fetch c lp dn).1 =
        upsert c dn (fetch_steam_name fetch dn) := by
      simp [processDir, h1, h2, h3, h4, hsub]
    rw [hred, lookup_upsert, if_pos rfl]

theorem processDir_cache_none (cn : List (String × String)) (cs : List (String × Bool))
    (ig nsg : List (String × String)) (fetch : String → Option String)
    (c : List (String × String)) (lp dn aid : String)
    (hsub : containsSub "AppID".data (fetch_steam_name fetch aid).data = true)
    (hn : List.lookup aid c = none) :
    List.lookup aid (processDir cn cs ig nsg fetch c lp dn).1 = none := by
  cases h1 : List.lookup dn cn with
  | some n => simpa [processDir, h1] using hn
  | none =>
  cases h2 : List.lookup dn ig with
  | some n => simpa [processDir, h1, h2] using hn
  | none =>
  cases h3 : List.lookup dn nsg with
  | some n => simpa [processDir, h1, h2, h3] using hn
  | none =>
  cases h4 : List.lookup dn c with
  | some v => simpa [processDir, h1, h2, h3, h4] using hn
  | none =>
    by_cases h5 : containsSub "AppID".data (fetch_steam_name fetch dn).data = true
    · simpa [processDir, h1, h2, h3, h4, h5] using hn
    · have h5f : containsSub "AppID".data (fetch_steam_name fetch dn).data = false :=
        Bool.eq_false_iff.2 h5
      have he : ¬ aid = dn := by
        intro hcon
        rw [hcon] at hsub
        rw [hsub] at h5f
        exact absurd h5f (by simp)
      have hred : (processDir cn cs ig nsg fetch c lp dn).1 =
          upsert c dn (fetch_steam_name fetch dn) := by
        simp [processDir, h1, h2, h3, h4, h5f]
      rw [hred, lookup_upsert, if_neg he]
      exact hn

/-! ## Helper lemmas: the invariant through the folds -/

theorem foldl_inv {σ α : Type} (P : σ → Prop) (f : σ → α → σ)
    (hstep : ∀ s a, P s → P (f s a)) : ∀ (l : List α) (s : σ), P s → P (l.foldl f s) := by
  intro l
  induction l with
  | nil => intro s h; exact h
  | cons a t ih => intro s h; exact ih (f s a) (hstep s a h)

theorem scanStep_inv (inp : ScanInput) (ig : List (String × String)) (lp : String)
    (st : List (String × String) × List PrefixRec) (d : DirEnt)
    (h : scanStInv inp ig st) :
    scanStInv inp ig
      (if IGNORE_APPIDS.contains d.dname then st
       else if !d.readable then st
       else
         ((processDir inp.custom_names inp.custom_status ig inp.non_steam_games
             inp.fetch st.1 lp d.dname).1,
          st.2 ++ [(processDir inp.custom_names inp.custom_status ig inp.non_steam_games
             inp.fetch st.1 lp d.dname).2])) := by
  by_cases hig : IGNORE_APPIDS.contains d.dname = true
  · rw [if_pos hig]; exact h
  · have higf : IGNORE_APPIDS.contains d.dname = false := Bool.eq_false_iff.2 hig
    rw [if_neg (by rw [higf]; exact Bool.false_ne_true)]
    by_cases hrd : d.readable = true
    · rw [if_neg (by rw [hrd]; simp)]
      refine ⟨?_, ?_, ?_, ?_⟩
      · exact processDir_cacheInv inp.custom_names inp.custom_status ig inp.non_steam_games
          inp.fetch inp.api_cache st.1 lp d.dname h.1
      · intro r hr
        rcases List.mem_append.1 hr with hro | hrn
        · exact h.2.1 r hro
        · rcases List.mem_singleton.1 hrn with hre
          rw [hre]
          refine ⟨?_, ?_, ?_⟩
          · rw [processDir_appid]
            exact processDir_status inp.custom_names inp.custom_status ig inp.non_steam_games
              inp.fetch st.1 lp d.dname
          · rw [processDir_appid]
            exact processDir_name inp.custom_names inp.custom_status ig inp.non_steam_games
              inp.fetch inp.api_cache st.1 lp d.dname h.1
          · rw [processDir_appid]
            exact higf
      · intro r hr hreach hsub
        rcases List.mem_append.1 hr with hro | hrn
        · exact processDir_cache_mono inp.custom_names inp.custom_status ig inp.non_steam_games
            inp.fetch st.1 lp d.dname r.appid (fetch_steam_name inp.fetch r.appid)
            (h.2.2.1 r hro hreach hsub)
        · rcases List.mem_singleton.1 hrn with hre
          rw [hre] at hreach hsub ⊢
          rw [processDir_appid] at hreach hsub ⊢
          exact processDir_new_fetch inp.custom_names inp.custom_status ig inp.non_steam_games
            inp.fetch inp.api_cache st.1 lp d.dname h.1
            hreach.1 hreach.2.1 hreach.2.2.1 hreach.2.2.2 hsub
      · intro aid h0 hsub
        exact processDir_cache_none inp.custom_names inp.custom_status ig inp.non_steam_games
          inp.fetch st.1 lp d.dname aid hsub (h.2.2.2 aid h0 hsub)
    · have hrdf : d.readable = false := Bool.eq_false_iff.2 hrd
      rw [if_pos (by rw [hrdf]; rfl)]
      exact h

theorem scanLib_inv (inp : ScanInput) (ig : List (String × String))
    (st : List (String × String) × List PrefixRec) (lib : LibRoot)
    (h : scanStInv inp ig st) : scanStInv inp ig (scanLib inp ig st lib) := by
  simp only [scanLib]
  cases hce : lib.compatExists with
  | false => simpa using h
  | true =>
    cases hca : lib.compatAccessOk with
    | false => simpa using h
    | true =>
      simp only [Bool.not_true, Bool.false_eq_true, if_false]
      refine foldl_inv (scanStInv inp ig) _ ?_ _ st h
      intro s d hs
      exact scanStep_inv inp ig lib.path s d hs

theorem scanRun_inv (inp : ScanInput) :
    scanStInv inp (scanManifests inp.libs)
      (inp.libs.foldl (scanLib inp (scanManifests inp.libs)) (inp.api_cache, [])) := by
  refine foldl_inv _ _ ?_ _ _ ?_
  · intro s lib hs
    exact scanLib_inv inp _ s lib hs
  · refine ⟨⟨fun aid v h => h, fun aid v h => Or.inl h⟩, ?_, ?_, ?_⟩
    · intro r hr; exact absurd hr (List.not_mem_nil r)
    · intro r hr; exact absurd hr (List.not_mem_nil r)
    · intro aid h0 _; exact h0

theorem scanRun_mem_spec (inp : ScanInput) (r : PrefixRec)
    (h : r ∈ (scanRun inp).1) : recSpec inp (scanManifests inp.libs) r := by
  simp only [scanRun] at h
  have h1 := (mem_sortRecs _ r).1 h
  rcases dedupGo_mem _ [] r h1 with h2 | h2
  · exact absurd h2 (List.not_mem_nil r)
  · exact (scanRun_inv inp).2.1 r h2

theorem scanRun_mem_raw (inp : ScanInput) (r : PrefixRec)
    (h : r ∈ (scanRun inp).1) :
    r ∈ (inp.libs.foldl (scanLib inp (scanManifests inp.libs)) (inp.api_cache, [])).2 := by
  simp only [scanRun] at h
  have h1 := (mem_sortRecs _ r).1 h
  rcases dedupGo_mem _ [] r h1 with h2 | h2
  · exact absurd h2 (List.not_mem_nil r)
  · exact h2

theorem scanRun_cache (inp : ScanInput) :
    (scanRun inp).2 =
      (inp.libs.foldl (scanLib inp (scanManifests inp.libs)) (inp.api_cache, [])).1 := rfl

theorem recLe_claim (a b : PrefixRec) (h : recLe a b = true) : sortedClaim a b := by
  simp only [recLe, Bool.or_eq_true, Bool.and_eq_true, decide_eq_true_eq, beq_iff_eq] at h
  constructor
  · intro ha
    rcases h with h1 | ⟨h1, _⟩
    · have hka : sortKeyFst a = 1 := by simp [sortKeyFst, ha]
      have hkb : sortKeyFst b ≤ 1 := by unfold sortKeyFst; split <;> omega
      omega
    · have hka : sortKeyFst a = 1 := by simp [sortKeyFst, ha]
      cases hbi : b.is_installed with
      | false => rfl
      | true =>
        have hkb : sortKeyFst b = 0 := by simp [sortKeyFst, hbi]
        omega
  · intro heq
    rcases h with h1 | ⟨_, h2⟩
    · have : sortKeyFst a = sortKeyFst b := by simp [sortKeyFst, heq]
      omega
    · exact h2

theorem getLibs_fold_mem (existsOnDisk : String → Bool) (q : String) :
    ∀ (ms : List String) (acc : List String), acc.Nodup →
    (ms.foldl (fun acc m =>
        let u := pyPathNorm (unescapeBS m)
        if existsOnDisk u && !(acc.contains u) then acc ++ [u] else acc) acc).Nodup ∧
    (q ∈ ms.foldl (fun acc m =>
        let u := pyPathNorm (unescapeBS m)
        if existsOnDisk u && !(acc.contains u) then acc ++ [u] else acc) acc ↔
      q ∈ acc ∨ ∃ m ∈ ms, q = pyPathNorm (unescapeBS m) ∧ existsOnDisk q = true) := by
  intro ms
  induction ms with
  | nil =>
    intro acc hnd
    refine ⟨hnd, ?_⟩
    simp
  | cons m ms ih =>
    intro acc hnd
    simp only [List.foldl_cons]
    by_cases hcond : (existsOnDisk (pyPathNorm (unescapeBS m)) &&
        !(acc.contains (pyPathNorm (unescapeBS m)))) = true
    · rw [if_pos hcond]
      rcases Bool.and_eq_true .. ▸ hcond with ⟨hex, hnc⟩
      have hnotmem : pyPathNorm (unescapeBS m) ∉ acc := by
        intro hc
        have : acc.contains (pyPathNorm (unescapeBS m)) = true := List.elem_iff.2 hc
        rw [this] at hnc
        exact absurd hnc (by simp)
      have hnd2 : (acc ++ [pyPathNorm (unescapeBS m)]).Nodup := by
        rw [List.nodup_append]
        refine ⟨hnd, List.nodup_singleton _, ?_⟩
        intro x hx hx2
        rcases List.mem_singleton.1 hx2 with rfl
        exact hnotmem hx
      have h := ih (acc ++ [pyPathNorm (unescapeBS m)]) hnd2
      refine ⟨h.1, ?_⟩
      rw [h.2]
      constructor
      · intro hin
        rcases hin with hin | ⟨m2, hm2, he2⟩
        · rcases List.mem_append.1 hin with h3 | h3
          · exact Or.inl h3
          · rcases List.mem_singleton.1 h3 with h4
            right
            exact ⟨m, List.mem_cons_self m ms, h4, h4 ▸ hex⟩
        · right
          exact ⟨m2, List.mem_cons_of_mem m hm2, he2⟩
      · intro hin
        rcases hin with hin | ⟨m2, hm2, he2, hex2⟩
        · exact Or.inl (List.mem_append.2 (Or.inl hin))
        · rcases List.mem_cons.1 hm2 with rfl | hm3
          · exact Or.inl (List.mem_append.2 (Or.inr (List.mem_singleton.2 he2)))
          · exact Or.inr ⟨m2, hm3, he2, hex2⟩
    · rw [if_neg hcond]
      have h := ih acc hnd
      refine ⟨h.1, ?_⟩
      rw [h.2]
      constructor
      · intro hin
        rcases hin with hin | ⟨m2, hm2, he2⟩
        · exact Or.inl hin
        · exact Or.inr ⟨m2, List.mem_cons_of_mem m hm2, he2⟩
      · intro hin
        rcases hin with hin | ⟨m2, hm2, he2, hex2⟩
        · exact Or.inl hin
        · rcases List.mem_cons.1 hm2 with rfl | hm3
          · left
            have hor : existsOnDisk (pyPathNorm (unescapeBS m2)) = false ∨
                acc.contains (pyPathNorm (unescapeBS m2)) = true := by
              cases hx : existsOnDisk (pyPathNorm (unescapeBS m2)) with
              | false => exact Or.inl rfl
              | true =>
                cases hy : acc.contains (pyPathNorm (unescapeBS m2)) with
                | true => exact Or.inr rfl
                | false => exact absurd (by rw [hx, hy]; rfl) hcond
            rcases hor with h5 | h5
            · rw [he2] at hex2
              rw [hex2] at h5
              exact absurd h5 (by simp)
            · rw [he2]
              exact List.elem_iff.1 h5
          · exact Or.inr ⟨m2, hm3, he2, hex2⟩

/-! ## The claims -/

/-- Claim C1: deduplication keeps exactly one record per appid: the first
record seen, unless a later installed record replaces an uninstalled kept
one; in particular an installed and an uninstalled record for one appid,
in either order, collapse to the installed one. -/
theorem claim_C1_dedup (l : List PrefixRec) (aid : String) :
    (dedup l).Pairwise (fun a b => a.appid ≠ b.appid) ∧
    (dedup l).find? (fun r => r.appid == aid) = dedupKeptSpec aid l ∧
    (∀ r s : PrefixRec, r.appid = s.appid → r.is_installed = true → s.is_installed = false →
      dedup [r, s] = [r] ∧ dedup [s, r] = [r]) := by
  refine ⟨dedupGo_pairwise_ne l [] List.Pairwise.nil, ?_, ?_⟩
  · exact dedupGo_find aid l [] List.Pairwise.nil
  · intro r s hap hr hs
    constructor
    · show dedupGo [] [r, s] = [r]
      simp [dedupGo, hap, hr, hs]
    · show dedupGo [] [s, r] = [r]
      simp [dedupGo, hap, hr, hs]

/-- Witness for C1: a concrete installed and uninstalled pair with appid
77, in both discovery orders, yields only the installed record. -/
theorem claim_C1_dedup_witness :
    dedup [rC1a, rC1b] = [rC1a] ∧ dedup [rC1b, rC1a] = [rC1a] :=
  (claim_C1_dedup [] "77").2.2 rC1a rC1b rfl rfl rfl

/-- Claim C2: the emitted inventory has every installed record before
every uninstalled one and, within each group, names ascending in
case-insensitive lexicographic order. -/
theorem claim_C2_sorted (inp : ScanInput) : ((scanRun inp).1).Pairwise sortedClaim := by
  have h : ((scanRun inp).1).Pairwise (fun a b => recLe a b = true) := by
    simp only [scanRun]
    exact sortRecs_pairwise _
  exact h.imp (fun hab => recLe_claim _ _ hab)

/-- Claim C4: every record of the final inventory carries the status given
by the chain custom_status, then manifest map, then shortcut map, then
false. -/
theorem claim_C4_status (inp : ScanInput) (r : PrefixRec) (h : r ∈ (scanRun inp).1) :
    r.is_installed =
      statusChain inp.custom_status (scanManifests inp.libs) inp.non_steam_games r.appid :=
  (scanRun_mem_spec inp r h).1

/-- Witness for C4 at a concrete scan: the record for directory 5 of inpW. -/
theorem claim_C4_status_witness :
    recW.is_installed =
      statusChain inpW.custom_status (scanManifests inpW.libs) inpW.non_steam_games recW.appid :=
  claim_C4_status inpW recW (by decide)

/-- Claim C9: an ignored appid never appears in the final inventory. -/
theorem claim_C9_ignored (inp : ScanInput) (aid : String)
    (h : IGNORE_APPIDS.contains aid = true) :
    ((scanRun inp).1).all (fun r => !(r.appid == aid)) = true := by
  rw [List.all_eq_true]
  intro r hr
  have h2 := (scanRun_mem_spec inp r hr).2.2
  cases hb : (r.appid == aid) with
  | false => rfl
  | true =>
    rw [beq_iff_eq.1 hb] at h2
    rw [h2] at h
    exact absurd h (by simp)

/-- Witness for C9: the ignored appid 0, whose directory inpW lists, is in
no record of inpW's inventory. -/
theorem claim_C9_ignored_witness :
    ((scanRun inpW).1).all (fun r => !(r.appid == "0")) = true :=
  claim_C9_ignored inpW "0" rfl

/-- Claim C10: a manifest with a recognizable appid but no name field
registers the placeholder name; a prefix resolved through that manifest
entry (no custom overrides) is reported installed under the placeholder
name, and the directory step neither reads the api_cache or the remote
lookup nor changes the cache. -/
theorem claim_C10_manifest_noname (inp : ScanInput) (content aid : String) (r : PrefixRec)
    (f1 f2 : String → Option String) (c1 c2 : List (String × String)) (lp : String)
    (h1 : searchAppid content = some aid) (h2 : searchName content = none)
    (hmem : r ∈ (scanRun inp).1) (hra : r.appid = aid)
    (hig : List.lookup aid (scanManifests inp.libs) = some ("AppID " ++ aid))
    (hcn : List.lookup aid inp.custom_names = none)
    (hcs : List.lookup aid inp.custom_status = none) :
    acfEntry content = some (aid, "AppID " ++ aid) ∧
    r.is_installed = true ∧ r.name = "AppID " ++ aid ∧
    (processDir inp.custom_names inp.custom_status (scanManifests inp.libs)
       inp.non_steam_games f1 c1 lp aid).2 =
      (processDir inp.custom_names inp.custom_status (scanManifests inp.libs)
       inp.non_steam_games f2 c2 lp aid).2 ∧
    (processDir inp.custom_names inp.custom_status (scanManifests inp.libs)
       inp.non_steam_games f1 c1 lp aid).1 = c1 := by
  have hspec := scanRun_mem_spec inp r hmem
  refine ⟨?_, ?_, ?_, ?_, ?_⟩
  · simp [acfEntry, h1, h2]
  · rw [hspec.1, hra]
    simp [statusChain, hcs, hig]
  · rw [hspec.2.1, hra]
    simp [nameChain, hcn, hig]
  · simp [processDir, hcn, hig]
  · simp [processDir, hcn, hig]

/-- Witness for C10: the manifest text of inpW names appid 42 without a
name field, and inpW's record 42 is installed under the placeholder. -/
theorem claim_C10_manifest_noname_witness :
    acfEntry "\"appid\" \"42\"" = some ("42", "AppID " ++ "42") ∧
    rec42.is_installed = true ∧ rec42.name = "AppID " ++ "42" ∧
    (processDir inpW.custom_names inpW.custom_status (scanManifests inpW.libs)
       inpW.non_steam_games (fun _ => none) [] "/R" "42").2 =
      (processDir inpW.custom_names inpW.custom_status (scanManifests inpW.libs)
       inpW.non_steam_games (fun a => some a) [("42", "zz")] "/R" "42").2 ∧
    (processDir inpW.custom_names inpW.custom_status (scanManifests inpW.libs)
       inpW.non_steam_games (fun _ => none) [] "/R" "42").1 = [] :=
  claim_C10_manifest_noname inpW "\"appid\" \"42\"" "42" rec42
    (fun _ => none) (fun a => some a) [] [("42", "zz")] "/R"
    (by decide) (by decide) (by decide) rfl (by decide) rfl rfl

/-- Claim C3, amended: the record name follows the chain custom_names,
manifest, shortcut, api_cache, remote lookup; a failed lookup degrades to
the placeholder; a fetched name is written into the cache exactly when it
does not contain the substring AppID (so the placeholder is never cached,
but neither is any successful result containing that substring). -/
theorem claim_C3_names (inp : ScanInput) (r : PrefixRec) (aid : String)
    (hmem : r ∈ (scanRun inp).1) :
    r.name = nameChain inp.custom_names (scanManifests inp.libs) inp.non_steam_games
      inp.api_cache inp.fetch r.appid ∧
    (inp.fetch aid = none → fetch_steam_name inp.fetch aid = "AppID " ++ aid) ∧
    (fetchReached inp (scanManifests inp.libs) r.appid →
      containsSub "AppID".data (fetch_steam_name inp.fetch r.appid).data = false →
      List.lookup r.appid (scanRun inp).2 = some (fetch_steam_name inp.fetch r.appid)) ∧
    (List.lookup aid inp.api_cache = none →
      containsSub "AppID".data (fetch_steam_name inp.fetch aid).data = true →
      List.lookup aid (scanRun inp).2 = none) := by
  refine ⟨(scanRun_mem_spec inp r hmem).2.1, ?_, ?_, ?_⟩
  · intro hf
    simp [fetch_steam_name, hf]
  · intro hreach hsub
    rw [scanRun_cache]
    exact (scanRun_inv inp).2.2.1 r (scanRun_mem_raw inp r hmem) hreach hsub
  · intro h0 hsub
    rw [scanRun_cache]
    exact (scanRun_inv inp).2.2.2 aid h0 hsub

/-- Witness for C3: in inpW the record for directory 5 resolves through
the chain, and its placeholder result is not written into the cache. -/
theorem claim_C3_names_witness :
    recW.name = nameChain inpW.custom_names (scanManifests inpW.libs) inpW.non_steam_games
      inpW.api_cache inpW.fetch recW.appid ∧
    List.lookup "5" (scanRun inpW).2 = none :=
  ⟨(claim_C3_names inpW recW "5" (by decide)).1,
   (claim_C3_names inpW recW "5" (by decide)).2.2.2 rfl (by decide)⟩

/-- Counterexample for C3 as stated: the remote lookup for appid 10
succeeds with a name that is not the placeholder, yet the scan leaves the
api_cache empty, because the code's caching condition is the absence of
the substring AppID, not inequality with the placeholder. -/
theorem claim_C3_counterexample :
    inpC3.fetch "10" = some "An AppID Story" ∧
    ("An AppID Story" = "AppID 10" → False) ∧
    (scanRun inpC3).1 = [recC3] ∧
    (scanRun inpC3).2 = [] :=
  ⟨rfl, by decide, by decide, by decide⟩

/-- Claim C6: the binary shortcut parser returns an ok list of maps on
every byte buffer; no error value ever reaches the caller. -/
theorem claim_C6_parser_total (data : List Nat) :
    ∃ items, parse_binary_vdf data = Except.ok items := by
  cases data with
  | nil => exact ⟨[], rfl⟩
  | cons b t =>
    cases hft : vdfFirstTry (b :: t) with
    | error e => exact ⟨vdfFallback (b :: t), by simp [parse_binary_vdf, hft]⟩
    | ok v =>
      cases v with
      | none => exact ⟨vdfFallback (b :: t), by simp [parse_binary_vdf, hft]⟩
      | some items => exact ⟨items, by simp [parse_binary_vdf, hft]⟩

/-- Claim C7: a type byte other than 0x00, 0x01, 0x02, 0x08 stops the
current map at once: the entries accumulated so far come back unchanged,
with no error. -/
theorem claim_C7_unknown_type (fuel : Nat) (d : List Nat) (p : Nat) (res : VDFMap) (t : Nat)
    (hget : d.get? p = some t)
    (h0 : t ≠ 0x00) (h1 : t ≠ 0x01) (h2 : t ≠ 0x02) (h8 : t ≠ 0x08)
    (hfuel : 0 < fuel) :
    parse_map fuel d p res = .ok (res, unknownStop d p) := by
  obtain ⟨f, rfl⟩ : ∃ f, fuel = f + 1 := ⟨fuel - 1, by omega⟩
  obtain ⟨hp, hgt⟩ := List.get?_eq_some.1 hget
  simp only [parse_map, dif_pos hp, hgt]
  rw [show (t == 0x08) = false from beq_eq_false_iff_ne.2 h8]
  simp only [Bool.false_eq_true, if_false]
  unfold unknownStop
  by_cases hlen : d.length ≤ p + 1
  · simp [hlen]
  · simp only [if_neg hlen]
    cases hrs : read_string d (p + 1) with
    | error e => simp
    | ok kp =>
      obtain ⟨key, p2⟩ := kp
      rw [show (t == 0x00) = false from beq_eq_false_iff_ne.2 h0]
      rw [show (t == 0x01) = false from beq_eq_false_iff_ne.2 h1]
      rw [show (t == 0x02) = false from beq_eq_false_iff_ne.2 h2]
      simp

/-- Witness for C7: the unknown type byte 0x09 at position 5 after one
decoded entry returns that entry alone, at position 6. -/
theorem claim_C7_unknown_type_witness :
    parse_map 1 [0x01, 107, 0, 118, 0, 0x09] 5 [("k", VDFValue.str "v")] =
      .ok ([("k", VDFValue.str "v")], unknownStop [0x01, 107, 0, 118, 0, 0x09] 5) :=
  claim_C7_unknown_type 1 [0x01, 107, 0, 118, 0, 0x09] 5 [("k", VDFValue.str "v")] 0x09
    rfl (by decide) (by decide) (by decide) (by decide) (by decide)

/-- Claim C5: a decoded shortcut record with an explicit integer id and a
nonempty name and executable path registers the id masked to 32 bits (the
mask is reduction modulo 2 to the 32) and, independently, the CRC-32 of
the UTF-8 bytes of exePath then appName with bit 31 set, both mapping to
the record's name. -/
theorem claim_C5_shortcut_ids (item : VDFMap) (n : Nat) (a e : String)
    (hid : List.lookup "appid" item = some (VDFValue.int n))
    (han : List.lookup "AppName" item = some (VDFValue.str a))
    (hex : List.lookup "Exe" item = some (VDFValue.str e))
    (ha : a ≠ "") (he : e ≠ "") :
    itemRegs item =
      ([(toString (n &&& 0xFFFFFFFF), VDFValue.str a),
        (toString ((crc32 (utf8Encode (e ++ a))) ||| 0x80000000), VDFValue.str a)], false) ∧
    n &&& 0xFFFFFFFF = n % 2 ^ 32 := by
  constructor
  · simp [itemRegs, hid, han, hex, truthy, ha, he]
  · have h32 : (0xFFFFFFFF : Nat) = 2 ^ 32 - 1 := by norm_num
    rw [h32]
    exact Nat.and_pow_two_sub_one_eq_mod n 32

/-- Witness for C5: the explicit id 4294967296 + 7 registers as 7, and
the derived id for /bin/game and Game is crc32 of /bin/gameGame with bit
31 set, 3605442621. -/
theorem claim_C5_shortcut_ids_witness :
    itemRegs itemC5 =
      ([("7", VDFValue.str "Game"), ("3605442621", VDFValue.str "Game")], false) ∧
    4294967303 &&& 0xFFFFFFFF = 4294967303 % 2 ^ 32 := by
  have h := claim_C5_shortcut_ids itemC5 4294967303 "Game" "/bin/game" rfl rfl rfl
    (by decide) (by decide)
  refine ⟨?_, h.2⟩
  rw [h.1]
  rfl

/-- Claim C8, amended: a quoted path value is unescaped, normalized as a
Path object, and appended iff it exists on disk and is not already
present, where membership is path equality on the normalized form (so
trailing-separator and spurious-slash differences do not distinguish
roots, while case differences do). -/
theorem claim_C8_libraries (steamBase : String) (baseExists : Bool) (content : String)
    (existsOnDisk : String → Bool) (q : String) :
    (getSteamLibraries steamBase baseExists (some content) existsOnDisk).Nodup ∧
    (q ∈ getSteamLibraries steamBase baseExists (some content) existsOnDisk ↔
      (baseExists = true ∧ q = pyPathNorm steamBase) ∨
      (∃ m ∈ findAllPathVals content,
        q = pyPathNorm (unescapeBS m) ∧ existsOnDisk q = true)) := by
  have hbase : (if baseExists then [pyPathNorm steamBase] else []).Nodup := by
    cases baseExists <;> simp
  have h := getLibs_fold_mem existsOnDisk q (findAllPathVals content) _ hbase
  simp only [getSteamLibraries]
  refine ⟨h.1, ?_⟩
  rw [h.2]
  have hb : q ∈ (if baseExists then [pyPathNorm steamBase] else []) ↔
      (baseExists = true ∧ q = pyPathNorm steamBase) := by
    cases baseExists <;> simp
  rw [hb]

/-- Counterexample for C8 as stated: two extracted path values differing
only by a trailing separator, both existing on disk, yield a single root;
membership is not decided on the raw path value. -/
theorem claim_C8_counterexample :
    findAllPathVals contentC8 = ["/lib", "/lib/"] ∧
    ("/lib/" = "/lib" → False) ∧
    getSteamLibraries "" false (some contentC8) (fun _ => true) = ["/lib"] ∧
    (getSteamLibraries "" false (some contentC8) (fun _ => true)).contains "/lib/" = false :=
  ⟨by decide, by decide, by decide, by decide⟩
